import Mathlib

/-!
Verification development for the `toki` language front end (Rust sources:
`src/lexer.rs`, `src/parser.rs`, `src/ast.rs`, `src/reporter.rs`).

The Rust code is shallowly embedded: the source text is a `List Char`,
byte offsets are `Nat` (advanced by `Char.utf8Size`, exactly as the Rust
code advances `self.byte` by `len_utf8`), the pull-iterator lexer becomes
an explicit state-transition function, and the recursive-descent parser
becomes a family of fuel-indexed total functions over a token list
(the `Peekable` iterator becomes the list itself: peeking inspects the
head, `next()` drops it).

Modelling notes, stated once here:
* Rust `char::is_alphabetic` / `is_alphanumeric` / `is_numeric` are
  Unicode-aware; they are modelled at ASCII granularity
  (`Char.isAlpha` / `Char.isAlphanum` / `Char.isDigit`).  Every concrete
  input used in a theorem below is ASCII, where the two coincide.
* Rust panics (`assert!`, `todo!`, `.expect`) abort the process and
  produce no token and no error value; they are modelled as explicit
  `panic` outcomes distinct from ordinary lex/parse errors.
* The crate's `token` module (the `Token`/`SpannedToken`/`Operator`
  definitions used by `lexer.rs` and `parser.rs`) is not among the
  sources; those definitions are modelled from the spec and are marked
  `Modelled from the spec:` in their doc comments.
-/

/-- Total UTF-8 byte length of a character list (mirrors Rust `str::len`). -/
def utf8Len (l : List Char) : Nat := (l.map Char.utf8Size).sum

/-- Decimal digits of a natural number, with explicit fuel (`n+1` always
suffices); used to model Rust's `Display` of integers and line numbers. -/
def natDigitsAux : Nat → Nat → List Char
  | 0, _ => []
  | f+1, n =>
    if n < 10 then [Char.ofNat (48 + n)]
    else natDigitsAux f (n / 10) ++ [Char.ofNat (48 + n % 10)]

/-- Decimal representation of a natural number as characters. -/
def natRepr (n : Nat) : List Char := natDigitsAux (n + 1) n

/-! ## Token model

Modelled from the spec: the crate's `token` module is not among the
sources.  Spec §3 fixes the closed set of variants: structural
(`Indent`, `Dedent`, `Newline`), literals (`IntLiteral(i32)`,
`StrLiteral`, `Ident`), punctuation, operators with compound-assignment
forms, boolean keywords and language keywords. -/

/-- Modelled from the spec: the `Token` tagged union of the missing
`token` module (spec §3).  Text-carrying variants hold the borrowed
slice as a `List Char`; `intLit` holds the parsed 32-bit value. -/
inductive Tok where
  | indent | dedent | newline
  | intLit (n : Int) | strLit (s : List Char) | ident (s : List Char)
  | lparen | rparen | colon | semicolon | comma | arrow | dot
  | add | addEq | sub | subEq | mul | mulEq | div | divEq
  | bang | bangEq | eq | doubleEq
  | notKw | andKw | orKw
  | mutKw | kwIf | kwElse | kwReturn | kwDef | kwStruct
deriving DecidableEq

/-- Modelled from the spec: the reduced operator classification of spec §3
(`Add`, `Sub`, `Mul`, `Div`, `Equals`). -/
inductive Operator where
  | add | sub | mul | div | equals
deriving DecidableEq

/-- `Precedence` from `parser.rs` lines 10-15; the derived Rust `Ord` is the
declaration order `Lowest < AddSub < MulDiv < Equality`. -/
inductive Precedence where
  | lowest | addSub | mulDiv | equality
deriving DecidableEq

/-- Numeric image of the derived `Ord` on `Precedence`. -/
def Precedence.toNat : Precedence → Nat
  | .lowest => 0
  | .addSub => 1
  | .mulDiv => 2
  | .equality => 3

/-- Modelled from the spec: each `Operator` maps to one of the four
total-ordered precedence levels (spec §3: this ordering is the single
source of truth for expression grouping). -/
def Operator.precedence : Operator → Precedence
  | .add | .sub => .addSub
  | .mul | .div => .mulDiv
  | .equals => .equality

/-- Modelled from the spec: `Token::as_operator`, deriving the reduced
`Operator` classification from the subset of tokens spec §3 names
(arithmetic operators and `==`). -/
def Tok.asOperator : Tok → Option Operator
  | .add => some .add
  | .sub => some .sub
  | .mul => some .mul
  | .div => some .div
  | .doubleEq => some .equals
  | _ => none

/-- Modelled from the spec: the rendered lexeme of each token (spec §3
display table; spec §4.2: errors carry "the offending token's rendered
length").  Structural tokens are synthetic; their rendering is one
character. -/
def dispTok : Tok → List Char
  | .indent => ['>']
  | .dedent => ['<']
  | .newline => ['\n']
  | .intLit n => natRepr n.toNat
  | .strLit s => '"' :: (s ++ ['"'])
  | .ident s => s
  | .lparen => ['(']
  | .rparen => [')']
  | .colon => [':']
  | .semicolon => [';']
  | .comma => [',']
  | .arrow => ['-', '>']
  | .dot => ['.']
  | .add => ['+']
  | .addEq => ['+', '=']
  | .sub => ['-']
  | .subEq => ['-', '=']
  | .mul => ['*']
  | .mulEq => ['*', '=']
  | .div => ['/']
  | .divEq => ['/', '=']
  | .bang => ['!']
  | .bangEq => ['!', '=']
  | .eq => ['=']
  | .doubleEq => ['=', '=']
  | .notKw => ['n', 'o', 't']
  | .andKw => ['a', 'n', 'd']
  | .orKw => ['o', 'r']
  | .mutKw => ['m', 'u', 't']
  | .kwIf => ['i', 'f']
  | .kwElse => ['e', 'l', 's', 'e']
  | .kwReturn => ['r', 'e', 't', 'u', 'r', 'n']
  | .kwDef => ['d', 'e', 'f']
  | .kwStruct => ['s', 't', 'r', 'u', 'c', 't']

/-- Modelled from the spec: `Token::src_len`, the rendered length used for
span highlighting (spec glossary: a span is a byte offset plus a rendered
length). -/
def srcLen (t : Tok) : Nat := (dispTok t).length

/-! ## Lexer (`src/lexer.rs`) -/

/-- `LexErr` from `lexer.rs` lines 25-29. -/
inductive LexErr where
  | unknownToken (ix : Nat) (ed : Option Nat)
  | unterminatedString (ix : Nat)
deriving DecidableEq

/-- One observable outcome of a `Lexer::next` call: a spanned token, a lex
error, or a Rust panic (`assert!` / `.expect`), which aborts the process. -/
inductive LexOut where
  | tok (pos : Nat) (t : Tok)
  | err (e : LexErr)
  | panicOut (msg : List Char)
deriving DecidableEq

/-- The lexer's mutable state (`Lexer` struct, `lexer.rs` lines 3-12):
remaining input, absolute byte offset, the just-after-newline flag and the
current indent level.  The `src` field is only used by dead error-display
code and is omitted. -/
structure LexState where
  rest : List Char
  byt : Nat
  janl : Bool
  level : Nat
deriving DecidableEq

/-- `Lexer::new` (`lexer.rs` lines 56-64): offset 0, `just_after_newline`
initialized to `false`, indent level 0. -/
def lexInit (src : List Char) : LexState := ⟨src, 0, false, 0⟩

/-- `get_keyword` (`lexer.rs` lines 226-239). -/
def get_keyword (s : List Char) : Option Tok :=
  if s = "and".toList then some .andKw
  else if s = "or".toList then some .orKw
  else if s = "not".toList then some .notKw
  else if s = "mut".toList then some .mutKw
  else if s = "return".toList then some .kwReturn
  else if s = "if".toList then some .kwIf
  else if s = "else".toList then some .kwElse
  else if s = "def".toList then some .kwDef
  else if s = "struct".toList then some .kwStruct
  else none

/-- Rust `str::parse::<i32>` on a run of digits/underscores: succeeds only
when the run is nonempty, all digits, and fits in `i32` (the run never
contains a sign, so only the positive bound matters); underscores or
overflow make it fail, which the Rust code turns into a panic via
`.expect("Should have checked")`. -/
def parseI32 (run : List Char) : Option Int :=
  if run ≠ [] ∧ run.all Char.isDigit then
    let v := run.foldl (fun acc c => acc * 10 + (c.toNat - 48)) 0
    if v ≤ 2147483647 then some (Int.ofNat v) else none
  else none

/-- The maximal digit/underscore run starting at `c1` (the
`Started::Numeric` arm's `c_rest.find` computation). -/
def numRun (c1 : Char) (rest2 : List Char) : List Char :=
  (c1 :: rest2).takeWhile (fun ch => ch.isDigit || ch = '_')

/-- The maximal alphanumeric/underscore run starting at `c1` (the
`Started::Ident` arm's `c_rest.find` computation). -/
def identRun (c1 : Char) (rest2 : List Char) : List Char :=
  (c1 :: rest2).takeWhile (fun ch => ch = '_' || ch.isAlphanum)

/-- `get_keyword(ident).unwrap_or_else(|| Token::Ident(ident))`
(`lexer.rs` line 181). -/
def identOut (cAt : Nat) (run : List Char) : LexOut :=
  match get_keyword run with
  | some k => .tok cAt k
  | none => .tok cAt (.ident run)

/-- Scanning of one non-space, non-newline character `c1` (with `rest2` the
input after it, `cAt` its byte offset, `lvl` the current indent level):
the punctuation / operator / literal / identifier arms of
`<Lexer as Iterator>::next` (`lexer.rs` lines 101-221).  All arms set
`just_after_newline` to `false`.  The state stored alongside an `err` or
`panicOut` outcome is nominal: the Rust process stops there. -/
def scanTok (lvl cAt : Nat) (c1 : Char) (rest2 : List Char) : LexOut × LexState :=
  let one : LexState := ⟨rest2, cAt + 1, false, lvl⟩
  let ifEqualElse : Tok → Tok → LexOut × LexState := fun no yes =>
    match rest2 with
    | '=' :: r => (.tok cAt yes, ⟨r, cAt + 2, false, lvl⟩)
    | _ => (.tok cAt no, one)
  match c1 with
  | '(' => (.tok cAt .lparen, one)
  | ')' => (.tok cAt .rparen, one)
  | ':' => (.tok cAt .colon, one)
  | ';' => (.tok cAt .semicolon, one)
  | ',' => (.tok cAt .comma, one)
  | '-' =>
    match rest2 with
    | '=' :: r => (.tok cAt .subEq, ⟨r, cAt + 2, false, lvl⟩)
    | '>' :: r => (.tok cAt .arrow, ⟨r, cAt + 2, false, lvl⟩)
    | _ => (.tok cAt .sub, one)
  | '+' => ifEqualElse .add .addEq
  | '*' => ifEqualElse .mul .mulEq
  | '/' => ifEqualElse .div .divEq
  | '!' => ifEqualElse .bang .bangEq
  | '=' => ifEqualElse .eq .doubleEq
  | '"' =>
    match rest2.findIdx? (· = '"') with
    | some i =>
      let content := rest2.take i
      (.tok cAt (.strLit content),
        ⟨rest2.drop (i + 1), cAt + 1 + utf8Len (rest2.take (i + 1)), false, lvl⟩)
    | none => (.err (.unterminatedString cAt), one)
  | _ =>
    if c1.isDigit then
      match parseI32 (numRun c1 rest2) with
      | some n =>
        (.tok cAt (.intLit n),
          ⟨(c1 :: rest2).drop (numRun c1 rest2).length, cAt + (numRun c1 rest2).length, false, lvl⟩)
      | none =>
        (.panicOut "Should have checked".toList,
          ⟨(c1 :: rest2).drop (numRun c1 rest2).length, cAt + (numRun c1 rest2).length, false, lvl⟩)
    else if c1.isAlpha then
      (identOut cAt (identRun c1 rest2),
        ⟨(c1 :: rest2).drop (identRun c1 rest2).length, cAt + utf8Len (identRun c1 rest2), false, lvl⟩)
    else (.err (.unknownToken cAt none), one)

/-- Result of processing the current line position once: either a final
outcome (`done`) or the `continue` of the `found == level` indentation
case, which re-enters the loop at the given state (`cont`). -/
inductive LexStep where
  | done (r : Option (LexOut × LexState))
  | cont (s : LexState)

/-- The body of the `loop` in `<Lexer as Iterator>::next` after the
needs-dedent check and space skipping (`lexer.rs` lines 89-221): `rest1`
is the remaining input (its head `c1` is the character the Rust code just
pulled), `byte1` its byte offset, `lvl` the current indent level. -/
def lineStep (lvl byte1 : Nat) (rest1 : List Char) : LexStep :=
  match rest1 with
  | [] => .done none
  | c1 :: rest2 =>
    if c1 = '\n' then
      .done (some (.tok byte1 .newline, ⟨rest2, byte1 + 1, true, lvl⟩))
    else if c1 = ' ' then
      -- Started::Spaces (only reachable when just_after_newline)
      if (rest1.takeWhile (· = ' ')).length % 4 ≠ 0 then
        .done (some (.panicOut "Required indent size is 4 spaces".toList,
          ⟨rest2, byte1 + 1, false, lvl⟩))
      else if (rest1.takeWhile (· = ' ')).length / 4 = lvl then
        -- `continue`: one space consumed, loop re-entered with the flag off
        .cont ⟨rest2, byte1 + 1, false, lvl⟩
      else if (rest1.takeWhile (· = ' ')).length / 4 < lvl then
        .done (some (.tok byte1 .dedent,
          ⟨rest1.drop 4, byte1 + 4, false, lvl - 1⟩))
      else if (rest1.takeWhile (· = ' ')).length / 4 - lvl ≠ 1 then
        .done (some (.panicOut "Unexpected Indent".toList,
          ⟨rest2, byte1 + 1, false, lvl⟩))
      else
        .done (some (.tok byte1 .indent,
          ⟨rest1.drop 4, byte1 + 4, false, lvl + 1⟩))
    else .done (some (scanTok lvl byte1 c1 rest2))

/-- `<Lexer as Iterator>::next` (`lexer.rs` lines 70-223), with explicit
fuel for the loop re-entry (`rest.length + 1` always suffices, every
re-entry having consumed input).  The needs-dedent test uses the raw head
character; when `just_after_newline` is unset the leading space run is
skipped (`while c == ' ' && !self.just_after_newline`), otherwise the
line is examined from the current position.  Returns `none` at end of
input, mirroring the iterator's `None`. -/
def nextF : Nat → LexState → Option (LexOut × LexState)
  | 0, _ => none
  | f+1, s =>
    match s.rest with
    | [] => none
    | c :: _ =>
      if s.level ≠ 0 ∧ s.janl ∧ c ≠ ' ' ∧ c ≠ '\n' then
        -- needs_dedent: emit without consuming any input character
        some (.tok s.byt .dedent, { s with level := s.level - 1 })
      else
        match
          if s.janl then lineStep s.level s.byt s.rest
          else lineStep s.level (s.byt + (s.rest.takeWhile (· = ' ')).length)
            (s.rest.dropWhile (· = ' '))
        with
        | .done r => r
        | .cont s2 => nextF f s2

/-- One `Lexer::next` call with sufficient fuel. -/
def next (s : LexState) : Option (LexOut × LexState) := nextF (s.rest.length + 1) s

/-- Repeatedly call `next`, collecting the emitted outcomes and the final
state.  A lex error or panic terminates the stream (spec §4.1 failure
semantics), so it is recorded and iteration stops. -/
def lexGoSt : Nat → LexState → List LexOut × LexState
  | 0, s => ([], s)
  | n+1, s =>
    match next s with
    | none => ([], s)
    | some (out, s') =>
      match out with
      | .tok p t =>
        let (outs, sFin) := lexGoSt n s'
        (.tok p t :: outs, sFin)
      | o => ([o], s')

/-- The emitted outcomes of the first `n` lexer calls on `src`. -/
def lexGo (n : Nat) (src : List Char) : List LexOut := (lexGoSt n (lexInit src)).1

/-- The full lexer output of `src` (the fuel bound `2 * length + 8`
dominates the call count: every call either consumes input or emits one of
the at most `length` pending dedents). -/
def lexItems (src : List Char) : List LexOut := lexGo (2 * src.length + 8) src

/-- Count of a given token among emitted outcomes. -/
def countTok (outs : List LexOut) (t : Tok) : Nat :=
  outs.countP (fun o => match o with | .tok _ u => u = t | _ => false)

/-! ## AST model (`src/ast.rs`)

`ast.rs` predates `parser.rs` in the snapshot: it lacks the `AttrAccess`
and `FnDef` helper types and the `methods` field of `StructDef` that
`parser.rs` constructs.  Those three pieces are modelled from the spec
(§3: attribute-access expression `(base_expr, attribute)`; function
definition `(name, args, body, return_type)`; struct definition with an
ordered method list); everything else follows `ast.rs`. -/

/-- `TypeAnnotation` from `ast.rs` lines 3-10 (name shortened). -/
inductive TypeAnnot where
  | int | str | bool
  | dynamic (name : List Char)
  | mut (inner : TypeAnnot)
deriving DecidableEq

mutual
/-- `AstLiteral` (`ast.rs` lines 28-37); literal variants carry the whole
token, as in the Rust code. -/
inductive AstLiteral where
  | int (t : Tok)
  | str (t : Tok)
  | ident (t : Tok)
  | typedIdent (name : Tok) (typeAnnot : TypeAnnot)

/-- `AstExpr` (`ast.rs` lines 149-157) with the binary-expression fields
inlined (`AstBinExpr`: `op`, boxed `l`, `r`) and, modelled from the spec,
an attribute-access variant (built by `parse_postfix_expr` but missing
from this `ast.rs`). -/
inductive AstExpr where
  | binExpr (op : Operator) (l r : AstExpr)
  | litExpr (lit : AstLiteral)
  | conditionalExpr (c : AstConditional)
  | blockExpr (b : AstBlock)
  | callExpr (c : AstCallExpr)
  | attrExpr (a : AttrAccess)

/-- `AstConditional` (`ast.rs` lines 91-96). -/
inductive AstConditional where
  | mk (condition : AstExpr) (ifBlock : AstBlock) (elseBlock : Option AstExpr)

/-- `AstBlock` (`ast.rs` lines 273-278). -/
inductive AstBlock where
  | mk (indent : Nat) (stmts : List AstStmt) (hasSemi : Bool)

/-- `CallArg` (`ast.rs` lines 121-125). -/
inductive CallArg where
  | mk (name : Option AstExpr) (expr : AstExpr)

/-- `AstCallExpr` (`ast.rs` lines 136-140). -/
inductive AstCallExpr where
  | mk (calledExpr : AstExpr) (args : List CallArg)

/-- Modelled from the spec: the attribute-access node (`base_expr`,
`attribute`) built by `parse_attr_access`. -/
inductive AttrAccess where
  | mk (attr : AstLiteral) (expr : AstExpr)

/-- Modelled from the spec: the function-definition record
(`name`, parameter list, `body`, `return_type`) built by `parse_fn_def`;
`ast.rs` carries the same four fields inline in its `AstStmt::FnDef`. -/
inductive FnDef where
  | mk (name : AstLiteral) (args : List AstLiteral) (body : AstBlock)
      (returnType : TypeAnnot)

/-- `AstStmt` (`ast.rs` lines 211-232), with `FnDef` as a record (as
`parser.rs` builds it) and the struct definition's method list (modelled
from the spec, missing from this `ast.rs`). -/
inductive AstStmt where
  | expr (e : AstExpr) (hasSemi : Bool)
  | ret (e : AstExpr)
  | assignment (target assigned : AstExpr)
  | fnDef (d : FnDef)
  | structDef (name : AstLiteral) (fields : List AstLiteral) (methods : List FnDef)
end

/-- Field accessor: a block's statement list. -/
def AstBlock.stmts : AstBlock → List AstStmt
  | .mk _ s _ => s

/-- Field accessor: a block's `indent`. -/
def AstBlock.indent : AstBlock → Nat
  | .mk i _ _ => i

/-- Field accessor: a block's `has_semi` flag. -/
def AstBlock.hasSemi : AstBlock → Bool
  | .mk _ _ h => h

/-- `expr_has_semi` (`parser.rs` lines 344-358). -/
def expr_has_semi (e : AstExpr) (hasSemiNext : Bool) : Bool :=
  match e with
  | .blockExpr b => b.hasSemi
  | .conditionalExpr (.mk _ ifBlock elseBlock) =>
    match elseBlock with
    | some eb => expr_has_semi eb hasSemiNext
    | none => ifBlock.hasSemi
  | _ => hasSemiNext

/-! ## Parser (`src/parser.rs`) -/

/-- `ParseErr` (`parser.rs` lines 17-34).  `expectedToken` stores the
expected token's rendering, as the Rust code stores its `to_string()`. -/
inductive ParseErr where
  | lexErr (e : LexErr)
  | invalidExpressionStart (ix len : Nat)
  | unexpectedEnd
  | unexpectedIndent (ix len expected : Nat)
  | unexpectedStmt (ix len : Nat)
  | expectedTypeAnnot (ix len : Nat)
  | expectedNewline (ix len : Nat)
  | expectedSemi (ix len : Nat)
  | expectedColon (ix len : Nat)
  | expectedFnName (ix len : Nat)
  | expectedToken (ix len : Nat) (t : List Char)
deriving DecidableEq

/-- A parser outcome that is not a value: a structured `ParseErr`, a Rust
panic (`todo!` in `parse_block`, the `assert!` in `parse_attr_access`),
or fuel exhaustion of the embedding (never hit by the concrete runs
below; general theorems quantify over fuel). -/
inductive PFail where
  | err (e : ParseErr)
  | panic (msg : List Char)
  | fuelOut
deriving DecidableEq

/-- `ParseContext` (`parser.rs` lines 36-40). -/
structure ParseContext where
  canParseAnnot : Bool
  isInParenBlock : Bool
deriving DecidableEq

/-- `ParseContext::new` (`parser.rs` lines 43-48). -/
def ParseContext.new : ParseContext := ⟨true, false⟩

/-- `ParseContext::entering_parens`. -/
def ParseContext.enteringParens (c : ParseContext) : ParseContext :=
  { c with isInParenBlock := true }

/-- `ParseContext::without_annotation_parsing`. -/
def ParseContext.withoutAnnot (c : ParseContext) : ParseContext :=
  { c with canParseAnnot := false }


/-- Decidable equality for `Except` (not provided by core). -/
instance exceptDecEq {e a : Type} [DecidableEq e] [DecidableEq a] :
    DecidableEq (Except e a) := fun x y =>
  match x, y with
  | .ok u, .ok v =>
    if h : u = v then .isTrue (by rw [h])
    else .isFalse (by intro hc; injection hc; contradiction)
  | .error u, .error v =>
    if h : u = v then .isTrue (by rw [h])
    else .isFalse (by intro hc; injection hc; contradiction)
  | .ok _, .error _ => .isFalse (by intro hc; injection hc)
  | .error _, .ok _ => .isFalse (by intro hc; injection hc)

/-- The parser's input: the `Peekable` token iterator, embedded as the
list of its remaining items (each a lex result, as in
`type TokenIter<'src> = LexResult<SpannedToken<'src>>`). -/
abbrev TS := List (Except LexErr (Nat × Tok))

/-- `get_next_token` (`parser.rs` lines 71-80). -/
def get_next_token (ts : TS) : Except PFail ((Nat × Tok) × TS) :=
  match ts with
  | [] => .error (.err .unexpectedEnd)
  | .ok st :: r => .ok (st, r)
  | .error e :: _ => .error (.err (.lexErr e))

/-- `eat` (`parser.rs` lines 604-613). -/
def eat (ts : TS) (expected : Tok) : Except PFail TS := do
  let ((ix, tok), r) ← get_next_token ts
  if tok = expected then .ok r
  else .error (.err (.expectedToken ix (srcLen tok) (dispTok expected)))

/-- `skip_newlines` (`parser.rs` lines 247-255). -/
def skip_newlines : TS → TS
  | .ok (_, .newline) :: r => skip_newlines r
  | ts => ts

/-- The remainder of `parse_type_decl` after the `mut` peek (`parser.rs`
lines 325-341): pull the next token, accept an identifier as a `Dynamic`
annotation, wrapping it in `Mut` when a `mut` was consumed. -/
def parse_type_decl_after (isMut : Bool) (ts1 : TS) : Except PFail (TypeAnnot × TS) :=
  match ts1 with
  | [] => .error (.err .unexpectedEnd)
  | .error e :: _ => .error (.err (.lexErr e))
  | .ok (ix, tok) :: r =>
    match tok with
    | .ident id =>
      .ok (if isMut then .mut (.dynamic id) else .dynamic id, r)
    | _ => .error (.err (.expectedTypeAnnot ix (srcLen tok)))

/-- `parse_type_decl` (`parser.rs` lines 314-342): an optional leading
`mut`, then the annotation proper. -/
def parse_type_decl (ts : TS) : Except PFail (TypeAnnot × TS) :=
  match ts with
  | .ok (_, .mutKw) :: r => parse_type_decl_after true r
  | _ => parse_type_decl_after false ts

/-- `parse_annotation` (`parser.rs` lines 594-602; name shortened):
consume the `:` then parse the type declaration. -/
def parse_annot (ts : TS) : Except PFail (TypeAnnot × TS) := do
  let ts1 ← eat ts .colon
  parse_type_decl ts1

/-- Whether a statement is a semicolon-less expression statement
(the `matches!(stmt, AstStmt::Expr { has_semi: false, .. })` test of
`parse_block`). -/
def isNoSemiExpr : AstStmt → Bool
  | .expr _ false => true
  | _ => false

/-- `parse_attr_access` (`parser.rs` lines 523-536); the `assert!` on a
non-identifier after `.` is a panic. -/
def parse_attr_access : Nat → AstExpr → TS → Except PFail (AttrAccess × TS)
  | 0, _, _ => .error .fuelOut
  | _+1, lhs, ts => do
    let ts1 ← eat ts .dot
    let ((_, attrTok), ts2) ← get_next_token ts1
    match attrTok with
    | .ident _ => .ok (.mk (.ident attrTok) lhs, ts2)
    | _ => .error (.panic "Expected Literal After Dot".toList)

set_option maxHeartbeats 2000000

mutual
/-- `parse_block` (`parser.rs` lines 91-138): the surrounding function;
the statement loop is `parse_block_go`. -/
def parse_block : Nat → TS → Nat → Except PFail (AstBlock × TS)
  | 0, _, _ => .error .fuelOut
  | f+1, ts, indent => parse_block_go f ts indent [] false
  termination_by structural f => f

/-- The `loop` of `parse_block` (`parser.rs` lines 98-130), with the
accumulated statements and the `has_no_semi_expr` flag as parameters. -/
def parse_block_go : Nat → TS → Nat → List AstStmt → Bool →
    Except PFail (AstBlock × TS)
  | 0, _, _, _, _ => .error .fuelOut
  | f+1, ts, indent, stmts, hasNoSemiExpr =>
    match ts with
    | [] => .ok (.mk indent stmts (!hasNoSemiExpr), [])
    | .ok (_, .newline) :: r => parse_block_go f r indent stmts hasNoSemiExpr
    | .ok (ix, .indent) :: _ =>
      .error (.err (.unexpectedIndent ix (srcLen .indent) 0))
    | .ok (_, .dedent) :: r => .ok (.mk indent stmts (!hasNoSemiExpr), r)
    | .ok (ix, tok) :: _ =>
      if hasNoSemiExpr then .error (.err (.unexpectedStmt ix (srcLen tok)))
      else do
        let (stmt, ts2) ← parse_stmt f ts indent
        parse_block_go f ts2 indent (stmts ++ [stmt]) (isNoSemiExpr stmt)
    | .error _ :: _ => .error (.panic "not yet implemented".toList)
  termination_by structural f => f

/-- `parse_stmt` (`parser.rs` lines 139-192). -/
def parse_stmt : Nat → TS → Nat → Except PFail (AstStmt × TS)
  | 0, _, _ => .error .fuelOut
  | f+1, ts, indent =>
    match ts with
    | .ok (_, .kwReturn) :: r => do
      let (e, ts2) ← parse_expr f r .lowest indent ParseContext.new
      let ts3 ← eat ts2 .semicolon
      .ok (.ret e, ts3)
    | .ok (_, .kwDef) :: _ => do
      let (d, ts2) ← parse_fn_def f ts indent
      .ok (.fnDef d, ts2)
    | .ok (_, .kwStruct) :: _ => parse_struct_def f ts indent
    | _ => do
      let (primaryExpr, ts2) ← parse_primary_expr f ts indent ParseContext.new
      match ts2 with
      | .ok (_, .eq) :: r2 => do
        let (toAssign, ts3) ← parse_expr f r2 .lowest indent ParseContext.new
        let ts4 ← eat ts3 .semicolon
        .ok (.assignment primaryExpr toAssign, ts4)
      | _ => do
        let (e, ts3) ← parse_expr_with f primaryExpr ts2 .lowest indent ParseContext.new
        let hasSemiNext :=
          match ts3 with
          | .ok (_, .semicolon) :: _ => true
          | _ => false
        let ts4 ← if hasSemiNext then eat ts3 .semicolon else pure ts3
        .ok (.expr e (expr_has_semi e hasSemiNext), ts4)
  termination_by structural f => f

/-- `parse_fn_args` (`parser.rs` lines 194-218): the argument loop. -/
def parse_fn_args_go : Nat → TS → List AstLiteral →
    Except PFail (List AstLiteral × TS)
  | 0, _, _ => .error .fuelOut
  | f+1, ts, args =>
    match ts with
    | .ok (_, .ident _) :: _ => do
      let ((_, tok), ts1) ← get_next_token ts
      let (ann, ts2) ← parse_annot ts1
      let args2 := args ++ [.typedIdent tok ann]
      let ts3 :=
        match ts2 with
        | .ok (_, .comma) :: r => r
        | _ => ts2
      parse_fn_args_go f ts3 args2
    | _ => do
      let ts1 ← eat ts .rparen
      .ok (args, ts1)
  termination_by structural f => f

/-- `parse_struct_def` (`parser.rs` lines 220-245). -/
def parse_struct_def : Nat → TS → Nat → Except PFail (AstStmt × TS)
  | 0, _, _ => .error .fuelOut
  | f+1, ts, _indent => do
    let ts1 ← eat ts .kwStruct
    let ((ix, structName), ts2) ← get_next_token ts1
    match structName with
    | .ident _ => do
      let name := AstLiteral.ident structName
      let ts3 ← eat ts2 .colon
      let ts4 ← eat ts3 .newline
      let ts5 ← eat ts4 .indent
      let (fields, ts6) ← parse_struct_fields_go f ts5 []
      let ts7 := skip_newlines ts6
      let (methods, ts8) ← parse_struct_methods_go f ts7 []
      let ts9 := skip_newlines ts8
      let ts10 ← eat ts9 .dedent
      .ok (.structDef name fields methods, ts10)
    | _ => .error (.err (.expectedFnName ix (srcLen structName)))
  termination_by structural f => f

/-- `parse_struct_fields` (`parser.rs` lines 256-268): the field loop. -/
def parse_struct_fields_go : Nat → TS → List AstLiteral →
    Except PFail (List AstLiteral × TS)
  | 0, _, _ => .error .fuelOut
  | f+1, ts, fields =>
    match ts with
    | .ok (_, .ident _) :: _ => do
      let ((_, name), ts1) ← get_next_token ts
      let (ann, ts2) ← parse_annot ts1
      let ts3 ← eat ts2 .newline
      parse_struct_fields_go f ts3 (fields ++ [.typedIdent name ann])
    | _ => .ok (fields, ts)
  termination_by structural f => f

/-- `parse_struct_methods` (`parser.rs` lines 270-279): the method loop. -/
def parse_struct_methods_go : Nat → TS → List FnDef →
    Except PFail (List FnDef × TS)
  | 0, _, _ => .error .fuelOut
  | f+1, ts, methods =>
    match ts with
    | .ok (_, .kwDef) :: _ => do
      let (d, ts1) ← parse_fn_def f ts 0
      parse_struct_methods_go f ts1 (methods ++ [d])
    | _ => .ok (methods, ts)
  termination_by structural f => f

/-- `parse_fn_def` (`parser.rs` lines 281-312). -/
def parse_fn_def : Nat → TS → Nat → Except PFail (FnDef × TS)
  | 0, _, _ => .error .fuelOut
  | f+1, ts, indent => do
    let ts1 ← eat ts .kwDef
    let ((ix, fnName), ts2) ← get_next_token ts1
    match fnName with
    | .ident _ => do
      let name := AstLiteral.ident fnName
      let ts3 ← eat ts2 .lparen
      let (args, ts4) ← parse_fn_args_go f ts3 []
      let ts5 ← eat ts4 .arrow
      let (returnType, ts6) ← parse_type_decl ts5
      let ts7 ← eat ts6 .colon
      let ts8 ← eat ts7 .newline
      let ts9 ← eat ts8 .indent
      let (body, ts10) ← parse_block f ts9 (indent + 1)
      .ok (.mk name args body returnType, ts10)
    | _ => .error (.err (.expectedFnName ix (srcLen fnName)))
  termination_by structural f => f

/-- `parse_primary_expr` (`parser.rs` lines 360-394). -/
def parse_primary_expr : Nat → TS → Nat → ParseContext →
    Except PFail (AstExpr × TS)
  | 0, _, _, _ => .error .fuelOut
  | f+1, ts, indent, context => do
    let ((ix, tok), ts1) ← get_next_token ts
    match tok with
    | .lparen =>
      -- both arms of the `if matches!(peek, Newline)` are identical
      parse_expr f ts1 .lowest indent context
    | .kwIf => do
      let (c, ts2) ← parse_conditional f ts1 indent
      .ok (.conditionalExpr c, ts2)
    | .ident _ =>
      let colonNext :=
        match ts1 with
        | .ok (_, .colon) :: _ => true
        | _ => false
      if colonNext && context.canParseAnnot then do
        let (ann, ts2) ← parse_annot ts1
        parse_postfix_expr f (.litExpr (.typedIdent tok ann)) ts2
      else parse_postfix_expr f (.litExpr (.ident tok)) ts1
    | .intLit _ => parse_postfix_expr f (.litExpr (.int tok)) ts1
    | .strLit _ => parse_postfix_expr f (.litExpr (.str tok)) ts1
    | _ => .error (.err (.invalidExpressionStart ix (srcLen tok)))
  termination_by structural f => f

/-- `parse_conditional` (`parser.rs` lines 396-442). -/
def parse_conditional : Nat → TS → Nat → Except PFail (AstConditional × TS)
  | 0, _, _ => .error .fuelOut
  | f+1, ts, indent => do
    let ctx := ParseContext.new.withoutAnnot
    let (condExpr, ts1) ← parse_expr f ts .lowest indent ctx
    let ((ix, tok), ts2) ← get_next_token ts1
    if tok = Tok.colon then do
      let ts3 ←
        match ts2 with
        | .ok (_, .newline) :: r => eat r .indent
        | _ => pure ts2
      let (ifBlock, ts4) ← parse_block f ts3 (indent + 1)
      match ts4 with
      | .ok (_, .kwElse) :: r4 => do
        let ((ix2, tok2), ts5) ← get_next_token r4
        match tok2 with
        | .kwIf => do
          let (c2, ts6) ← parse_conditional f ts5 indent
          .ok (.mk condExpr ifBlock (some (.conditionalExpr c2)), ts6)
        | .colon => do
          let ts6 ← eat ts5 .newline
          let ts7 ← eat ts6 .indent
          let (eb, ts8) ← parse_block f ts7 (indent + 1)
          .ok (.mk condExpr ifBlock (some (.blockExpr eb)), ts8)
        | _ => .error (.err (.expectedColon ix2 (srcLen tok2)))
      | _ => .ok (.mk condExpr ifBlock none, ts4)
    else .error (.err (.expectedColon ix (srcLen tok)))
  termination_by structural f => f

/-- `parse_expr` (`parser.rs` lines 444-455). -/
def parse_expr : Nat → TS → Precedence → Nat → ParseContext →
    Except PFail (AstExpr × TS)
  | 0, _, _, _, _ => .error .fuelOut
  | f+1, ts, precedence, indent, context => do
    let (lhs, ts1) ← parse_primary_expr f ts indent context
    parse_expr_with f lhs ts1 precedence indent context
  termination_by structural f => f

/-- `parse_expr_with` (`parser.rs` lines 457-501): initial postfix pass,
then the operator loop (`parse_expr_with_go`). -/
def parse_expr_with : Nat → AstExpr → TS → Precedence → Nat → ParseContext →
    Except PFail (AstExpr × TS)
  | 0, _, _, _, _, _ => .error .fuelOut
  | f+1, parsedExpr, ts, precedence, indent, context => do
    let (lhs, ts1) ← parse_postfix_expr f parsedExpr ts
    parse_expr_with_go f lhs ts1 precedence indent context
  termination_by structural f => f

/-- The `loop` of `parse_expr_with` (`parser.rs` lines 469-498); every
exit from the loop runs a final `parse_postfix_expr` (line 500). -/
def parse_expr_with_go : Nat → AstExpr → TS → Precedence → Nat → ParseContext →
    Except PFail (AstExpr × TS)
  | 0, _, _, _, _, _ => .error .fuelOut
  | f+1, lhs, ts, precedence, indent, context =>
    match ts with
    | .ok (_, .semicolon) :: _ => parse_postfix_expr f lhs ts
    | .ok (_, .rparen) :: r =>
      let ts2 := if context.isInParenBlock then ts else r
      parse_postfix_expr f lhs ts2
    | .ok (_, tok) :: r =>
      match tok.asOperator with
      | none => parse_postfix_expr f lhs ts
      | some op =>
        if (Operator.precedence op).toNat < precedence.toNat then
          parse_postfix_expr f lhs ts
        else do
          let (rhs, ts2) ← parse_expr f r (Operator.precedence op) indent context
          let (lhs2, ts3) ← parse_postfix_expr f (.binExpr op lhs rhs) ts2
          parse_expr_with_go f lhs2 ts3 precedence indent context
    | _ => parse_postfix_expr f lhs ts
  termination_by structural f => f

/-- `parse_postfix_expr` (`parser.rs` lines 503-521). -/
def parse_postfix_expr : Nat → AstExpr → TS → Except PFail (AstExpr × TS)
  | 0, _, _ => .error .fuelOut
  | f+1, lhs, ts =>
    match ts with
    | .ok (_, .lparen) :: _ => do
      let (c, ts1) ← parse_call_expr f lhs ts
      parse_postfix_expr f (.callExpr c) ts1
    | .ok (_, .dot) :: _ => do
      let (a, ts1) ← parse_attr_access f lhs ts
      parse_postfix_expr f (.attrExpr a) ts1
    | _ => .ok (lhs, ts)
  termination_by structural f => f

/-- `parse_call_expr` (`parser.rs` lines 538-592). -/
def parse_call_expr : Nat → AstExpr → TS → Except PFail (AstCallExpr × TS)
  | 0, _, _ => .error .fuelOut
  | f+1, fnExpr, ts => do
    let ts1 ← eat ts .lparen
    let (isVertical, ts2) :=
      match ts1 with
      | .ok (_, .newline) :: r => (true, r)
      | _ => (false, ts1)
    let ts3 ← if isVertical then eat ts2 .indent else pure ts2
    let (callArgs, ts4) ← parse_call_args_go f ts3 isVertical []
    let ts5 ← if isVertical then eat ts4 .dedent else pure ts4
    let ts6 ← eat ts5 .rparen
    .ok (.mk fnExpr callArgs, ts6)
  termination_by structural f => f

/-- The `while` argument loop of `parse_call_expr` (`parser.rs` lines
556-579). -/
def parse_call_args_go : Nat → TS → Bool → List CallArg →
    Except PFail (List CallArg × TS)
  | 0, _, _, _ => .error .fuelOut
  | f+1, ts, isVertical, callArgs =>
    match ts with
    | .ok (_, .rparen) :: _ => .ok (callArgs, ts)
    | .ok (_, .dedent) :: _ => .ok (callArgs, ts)
    | _ => do
      let ctx := ParseContext.new.enteringParens
      let (e, ts1) ← parse_expr f ts .lowest 0 ctx
      let eqNext :=
        match ts1 with
        | .ok (_, .eq) :: _ => true
        | _ => false
      let isLit :=
        match e with
        | .litExpr _ => true
        | _ => false
      let (argName, e2, ts2) ←
        if isLit && eqNext then do
          let ts1b ← eat ts1 .eq
          let (e2, ts2) ← parse_expr f ts1b .lowest 0 ctx
          pure (some e, e2, ts2)
        else pure (none, e, ts1)
      let callArgs2 := callArgs ++ [CallArg.mk argName e2]
      match ts2 with
      | .ok (_, .comma) :: _ => do
        let ts3 ← eat ts2 .comma
        let ts4 ← if isVertical then eat ts3 .newline else pure ts3
        parse_call_args_go f ts4 isVertical callArgs2
      | _ => .ok (callArgs2, ts2)
  termination_by structural f => f
end

set_option maxHeartbeats 200000

/-- `parse` (`parser.rs` lines 82-89): the parser entry point, a
`parse_block` at indent 0 (the remaining iterator is discarded). -/
def parse (fuel : Nat) (ts : TS) : Except PFail AstBlock :=
  (parse_block fuel ts 0).map (·.1)

/-! ## Pipeline: lexer feeding the parser

The modern driver is not among the sources; spec §2 fixes the control
flow: the parser pulls `(byte-offset, Token)` results from the lexer.
A lexer panic aborts the whole process before the parser can observe it;
`parse_src` therefore reports it as a panic outcome. -/

/-- The lexer's output as parser input (`TokenIter` items). -/
def lexStream (src : List Char) : TS :=
  (lexItems src).filterMap fun o =>
    match o with
    | .tok p t => some (.ok (p, t))
    | .err e => some (.error e)
    | .panicOut _ => none

/-- Whether lexing `src` panics (indent assertion or integer `.expect`). -/
def lexPanics (src : List Char) : Bool :=
  (lexItems src).any fun o =>
    match o with
    | .panicOut _ => true
    | _ => false

/-- End-to-end front end: lex `src` and `parse` the token stream (spec §2
control flow; `4 * length + 16` fuel dominates every call chain of the
parser on a stream of at most `length` tokens). -/
def parse_src (src : List Char) : Except PFail AstBlock :=
  if lexPanics src then .error (.panic "process aborted in lexer".toList)
  else parse (4 * src.length + 16) (lexStream src)

/-! ## Rendering (the `Display` impls of `src/ast.rs`)

The renderer is only ever run on concrete values in the theorems below,
so it is given explicit fuel like the parser (`display` with fuel 0 is
never reached at the sizes involved). -/

/-- `Display for TypeAnnotation` (`ast.rs` lines 12-26). -/
def dispAnnot : TypeAnnot → List Char
  | .int => "int".toList
  | .str => "str".toList
  | .bool => "bool".toList
  | .dynamic d => d
  | .mut t => "mut ".toList ++ dispAnnot t

/-- `Display for AstLiteral` (`ast.rs` lines 45-58): literal variants
print their token, a typed identifier prints `name: type`. -/
def dispLit : AstLiteral → List Char
  | .int t => dispTok t
  | .str t => dispTok t
  | .ident t => dispTok t
  | .typedIdent name ann => dispTok name ++ ": ".toList ++ dispAnnot ann

/-- `iter::repeat(" ").take(n)`: `n` spaces. -/
def spaces (n : Nat) : List Char := List.replicate n ' '

/-- Fields of a struct rendering: `"    {field}"` joined with `\n`
(`ast.rs` lines 237-243). -/
def dispJoinFields : List AstLiteral → List Char
  | [] => []
  | [a] => spaces 4 ++ dispLit a
  | a :: rest => spaces 4 ++ dispLit a ++ '\n' :: dispJoinFields rest

/-- Function parameters joined with `", "` (`ast.rs` lines 252-256). -/
def dispJoinFnArgs : List AstLiteral → List Char
  | [] => []
  | [a] => dispLit a
  | a :: rest => dispLit a ++ ", ".toList ++ dispJoinFnArgs rest

/-- `Display for Operator`: modelled from the spec (missing `token`
module); each operator renders as its lexeme. -/
def dispOp : Operator → List Char
  | .add => ['+']
  | .sub => ['-']
  | .mul => ['*']
  | .div => ['/']
  | .equals => ['=', '=']

mutual
/-- `Display for AstExpr` (`ast.rs` lines 176-186), plus the modelled
attribute-access rendering `base.attr` (absent from this `ast.rs`). -/
def dispExpr : Nat → AstExpr → List Char
  | 0, _ => []
  | f+1, e =>
    match e with
    | .binExpr op l r =>
      '(' :: (dispExpr f l ++ ' ' :: dispOp op ++ ' ' :: dispExpr f r ++ [')'])
    | .litExpr lit => dispLit lit
    | .conditionalExpr c => dispCond f c
    | .blockExpr b => dispBlock f b
    | .callExpr c => dispCall f c
    | .attrExpr (.mk attr base) => dispExpr f base ++ '.' :: dispLit attr
  termination_by structural f => f

/-- `Display for AstConditional` (`ast.rs` lines 103-119). -/
def dispCond : Nat → AstConditional → List Char
  | 0, _ => []
  | f+1, .mk condition ifBlock elseBlock =>
    let elseTxt :=
      match elseBlock with
      | some eb =>
        let ind := if ifBlock.indent > 0 then ifBlock.indent - 1 else 0
        spaces (ind * 4) ++ "else:\n".toList ++ dispExpr f eb
      | none => []
    "if ".toList ++ dispExpr f condition ++ ":\n".toList ++ dispBlock f ifBlock
      ++ elseTxt
  termination_by structural f => f

/-- `Display for CallArg` (`ast.rs` lines 127-134). -/
def dispCallArg : Nat → CallArg → List Char
  | 0, _ => []
  | f+1, .mk name e =>
    match name with
    | some n => dispExpr f n ++ '=' :: dispExpr f e
    | none => dispExpr f e
  termination_by structural f => f

/-- `Display for AstCallExpr` (`ast.rs` lines 142-147): arguments joined
with `,`. -/
def dispCall : Nat → AstCallExpr → List Char
  | 0, _ => []
  | f+1, .mk called args =>
    dispExpr f called ++ '(' :: (dispJoinArgs f args ++ [')'])
  termination_by structural f => f

/-- `args.iter().map(to_string).join(",")`. -/
def dispJoinArgs : Nat → List CallArg → List Char
  | 0, _ => []
  | _+1, [] => []
  | f+1, [a] => dispCallArg f a
  | f+1, a :: rest => dispCallArg f a ++ ',' :: dispJoinArgs f rest
  termination_by structural f => f

/-- `Display for AstStmt` (`ast.rs` lines 234-271). -/
def dispStmt : Nat → AstStmt → List Char
  | 0, _ => []
  | f+1, s =>
    match s with
    | .structDef name fields _methods =>
      -- `ast.rs` renders only the fields, each on a 4-space-indented line
      "struct ".toList ++ dispLit name ++ ":\n".toList
        ++ dispJoinFields fields
    | .fnDef (.mk name args body returnType) =>
      "def ".toList ++ dispLit name ++ '(' :: (dispJoinFnArgs args ++ ") -> ".toList)
        ++ dispAnnot returnType ++ ":\n".toList ++ dispBlock f body ++ [';']
    | .assignment target assigned =>
      dispExpr f target ++ " = ".toList ++ dispExpr f assigned ++ [';']
    | .expr e hasSemi =>
      dispExpr f e ++ (if hasSemi then [';'] else [])
    | .ret e => "return ".toList ++ dispExpr f e ++ [';']
  termination_by structural f => f

/-- `Display for AstBlock` (`ast.rs` lines 280-289): each statement on its
own line, prefixed by `indent * 4` spaces. -/
def dispBlock : Nat → AstBlock → List Char
  | 0, _ => []
  | f+1, .mk indent stmts _ => dispBlockGo f indent stmts
  termination_by structural f => f

/-- The statement loop of `Display for AstBlock`. -/
def dispBlockGo : Nat → Nat → List AstStmt → List Char
  | 0, _, _ => []
  | _+1, _, [] => []
  | f+1, indent, s :: rest =>
    spaces (indent * 4) ++ dispStmt f s ++ '\n' :: dispBlockGo f indent rest
  termination_by structural f => f
end

/-- Render a whole parsed program (the root `AstBlock`). -/
def render (b : AstBlock) : List Char := dispBlock 1000 b

/-! ## Diagnostics / Reporter (`src/reporter.rs`)

Embedded over `List Char`; all concrete inputs are ASCII, where Rust's
byte indices coincide with character indices (the `char_indices().nth`
calls of `highlight_line`/`underline_line` convert between the two in the
Rust code). -/

/-- Rust `str::split('\n')` on the prefix before the error offset:
splitting an empty string yields one empty piece. -/
def split_nl : List Char → List (List Char)
  | [] => [[]]
  | c :: r =>
    if c = '\n' then [] :: split_nl r
    else
      match split_nl r with
      | h :: t => (c :: h) :: t
      | [] => [[c]]

/-- Index of the last `'\n'` in `l`, if any (Rust `str::rfind('\n')`). -/
def rfind_nl (l : List Char) : Option Nat :=
  (l.reverse.findIdx? (· = '\n')).map (fun i => l.length - 1 - i)

/-- `extract_line` (`reporter.rs` lines 66-84): the line containing byte
offset `ix`, the line "number" computed as
`before_ix.split('\n').count() - 1`, and the offset within the line. -/
def extract_line (s : List Char) (ix : Nat) : List Char × Nat × Nat :=
  let beforeIx := s.take ix
  let afterIx := s.drop ix
  let start := (rfind_nl beforeIx).elim 0 (· + 1)
  let endIx := (afterIx.findIdx? (· = '\n')).elim s.length (ix + ·)
  let lineNo := (split_nl beforeIx).length - 1
  let line := (s.take endIx).drop start
  (line, lineNo, ix - start)

/-- The ANSI bold escape. -/
def escBold : List Char := ['\x1b', '[', '1', 'm']

/-- The ANSI bright-red escape. -/
def escRed : List Char := ['\x1b', '[', '9', '1', 'm']

/-- The ANSI reset escape. -/
def escReset : List Char := ['\x1b', '[', '0', 'm']

/-- `highlight_line` (`reporter.rs` lines 86-99): the extracted line with
the span `ix..ix+len` (clamped to the line) wrapped in red escapes. -/
def highlight_line (line : List Char) (ix len : Nat) : List Char :=
  let endIx := min (ix + len) line.length
  line.take ix ++ escRed ++ ((line.take endIx).drop ix ++ escReset ++ line.drop endIx)

/-- `underline_line` (`reporter.rs` lines 101-116): spaces with a red
caret run of the token's length under the span. -/
def underline_line (line : List Char) (ix len : Nat) : List Char :=
  let endIx := min (ix + len) line.length
  spaces ix ++ escRed ++ (List.replicate len '^' ++ escReset ++ spaces (line.length - endIx))

/-- `print_err` (`reporter.rs` lines 54-64): the full rendered diagnostic
paragraph; its header interpolates the `line_no` from `extract_line` and
the raw byte offset. -/
def print_err (src : List Char) (errMsg : List Char) (ix len : Nat) : List Char :=
  let ex := extract_line src ix
  let line := ex.1
  let lineNo := ex.2.1
  let ixInLine := ex.2.2
  '\n' :: escBold ++ "Error: ".toList ++ errMsg ++ ' ' :: natRepr lineNo
    ++ ':' :: natRepr ix ++ ':' :: escReset
    ++ "\n\n\t".toList ++ highlight_line line ixInLine len
    ++ "\n\t".toList ++ underline_line line ixInLine len
    ++ "\n\n".toList

/-- `report` (`reporter.rs` lines 7-52): pass parse success through,
render failures.  (The `UnexpectedMut` arm of `reporter.rs` matches a
`ParseErr` variant that does not exist in this `parser.rs` and is
therefore dead here; a parser-level panic has no report, the process is
already gone.) -/
def report (parsed : Except PFail AstBlock) (src : List Char) :
    Except (List Char) AstBlock :=
  match parsed with
  | .ok r => .ok r
  | .error (.panic m) => .error ("process aborted: ".toList ++ m)
  | .error .fuelOut => .error "fuel exhausted (embedding artifact)".toList
  | .error (.err e) =>
    .error <|
      match e with
      | .invalidExpressionStart ix len =>
        print_err src "Expected Expression at Position".toList ix len
      | .expectedSemi ix len =>
        print_err src "Expected Semicolon at Position".toList ix len
      | .expectedTypeAnnot ix len =>
        print_err src "Expected Valid Type In Annotation at Position".toList ix len
      | .expectedColon ix len =>
        print_err src "Expected Colon Starting Block".toList ix len
      | .unexpectedStmt ix len =>
        print_err src
          "Unexpected Statement (Previous statement may be missing a semicolon)".toList
          ix len
      | .unexpectedIndent ix len expected =>
        print_err src
          ("Unexpected Indent Level At Position (Expected ".toList
            ++ natRepr expected ++ [')']) ix len
      | .expectedToken ix len t =>
        print_err src ("Expected '".toList ++ t ++ "' at Position".toList) ix len
      | .unexpectedEnd => "Reached Unexpected End Of Input".toList
      | .lexErr le =>
        match le with
        | .unknownToken ix _ => print_err src "Lex Err".toList ix 1
        | .unterminatedString ix => print_err src "Lex Err".toList ix 1
      | .expectedFnName ix len =>
        print_err src "Expected Function Name at Position".toList ix len
      | .expectedNewline ix len =>
        print_err src "Eepected Newline at Position".toList ix len

/-! ## Helper lemmas for the lexer theorems -/

/-- Number of `Indent` tokens an outcome contributes. -/
def indentCnt : LexOut → Nat
  | .tok _ .indent => 1
  | _ => 0

/-- Number of `Dedent` tokens an outcome contributes. -/
def dedentCnt : LexOut → Nat
  | .tok _ .dedent => 1
  | _ => 0

theorem get_keyword_not_structural (s : List Char) (t : Tok) (h : get_keyword s = some t) :
    t ≠ .indent ∧ t ≠ .dedent ∧ t ≠ .newline := by
  unfold get_keyword at h
  repeat'
    first
    | (injection h with h; subst h; exact ⟨by decide, by decide, by decide⟩)
    | contradiction
    | split at h

theorem identOut_cnt (cAt : Nat) (run : List Char) :
    indentCnt (identOut cAt run) = 0 ∧ dedentCnt (identOut cAt run) = 0 := by
  unfold identOut
  cases h : get_keyword run with
  | none => exact ⟨rfl, rfl⟩
  | some k =>
    obtain ⟨h1, h2, _⟩ := get_keyword_not_structural _ _ h
    cases k <;> simp_all [indentCnt, dedentCnt]

theorem scanTok_spec (lvl cAt : Nat) (c1 : Char) (rest2 : List Char) :
    (scanTok lvl cAt c1 rest2).2.level = lvl
    ∧ indentCnt (scanTok lvl cAt c1 rest2).1 = 0
    ∧ dedentCnt (scanTok lvl cAt c1 rest2).1 = 0 := by
  unfold scanTok
  repeat' split
  all_goals try refine ⟨rfl, rfl, rfl⟩
  all_goals exact ⟨rfl, (identOut_cnt _ _).1, (identOut_cnt _ _).2⟩

/-- Level accounting of one `lineStep`: a finished outcome changes the
level exactly by its indent/dedent contribution, a `continue` keeps it. -/
theorem lineStep_level (lvl byte1 : Nat) (rest1 : List Char) :
    (∀ out s', lineStep lvl byte1 rest1 = .done (some (out, s')) →
      s'.level + dedentCnt out = lvl + indentCnt out)
    ∧ (∀ s2, lineStep lvl byte1 rest1 = .cont s2 → s2.level = lvl) := by
  cases rest1 with
  | nil =>
    exact ⟨fun out s' h => by simp [lineStep] at h, fun s2 h => by simp [lineStep] at h⟩
  | cons c1 rest2 =>
    by_cases h1 : c1 = '\n'
    case pos =>
      refine ⟨fun out s' h => ?_, fun s2 h => ?_⟩ <;>
        (simp only [lineStep] at h; rw [if_pos h1] at h)
      · injection h with h; injection h with h; injection h with ho hs
        subst ho; subst hs; simp [dedentCnt, indentCnt]
      · exact absurd h (by simp)
    case neg =>
      by_cases h2 : c1 = ' '
      case neg =>
        refine ⟨fun out s' h => ?_, fun s2 h => ?_⟩ <;>
          (simp only [lineStep] at h; rw [if_neg h1, if_neg h2] at h)
        · injection h with h; injection h with h
          have hps : scanTok lvl byte1 c1 rest2 = (out, s') := h
          obtain ⟨hl, hi, hd⟩ := scanTok_spec lvl byte1 c1 rest2
          rw [hps] at hl hi hd
          simp only [Prod.fst, Prod.snd] at hl hi hd
          omega
        · exact absurd h (by simp)
      case pos =>
        by_cases h3 : ((c1 :: rest2).takeWhile (· = ' ')).length % 4 ≠ 0
        case pos =>
          refine ⟨fun out s' h => ?_, fun s2 h => ?_⟩ <;>
            (simp only [lineStep] at h; rw [if_neg h1, if_pos h2, if_pos h3] at h)
          · injection h with h; injection h with h; injection h with ho hs
            subst ho; subst hs; simp [dedentCnt, indentCnt]
          · exact absurd h (by simp)
        case neg =>
          by_cases h4 : ((c1 :: rest2).takeWhile (· = ' ')).length / 4 = lvl
          case pos =>
            refine ⟨fun out s' h => ?_, fun s2 h => ?_⟩ <;>
              (simp only [lineStep] at h; rw [if_neg h1, if_pos h2, if_neg h3, if_pos h4] at h)
            · exact absurd h (by simp)
            · injection h with h; rw [← h]
          case neg =>
            by_cases h5 : ((c1 :: rest2).takeWhile (· = ' ')).length / 4 < lvl
            case pos =>
              refine ⟨fun out s' h => ?_, fun s2 h => ?_⟩ <;>
                (simp only [lineStep] at h;
                 rw [if_neg h1, if_pos h2, if_neg h3, if_neg h4, if_pos h5] at h)
              · injection h with h; injection h with h; injection h with ho hs
                subst ho; subst hs; simp [dedentCnt, indentCnt]; omega
              · exact absurd h (by simp)
            case neg =>
              by_cases h6 : ((c1 :: rest2).takeWhile (· = ' ')).length / 4 - lvl ≠ 1
              case pos =>
                refine ⟨fun out s' h => ?_, fun s2 h => ?_⟩ <;>
                  (simp only [lineStep] at h;
                   rw [if_neg h1, if_pos h2, if_neg h3, if_neg h4, if_neg h5, if_pos h6] at h)
                · injection h with h; injection h with h; injection h with ho hs
                  subst ho; subst hs; simp [dedentCnt, indentCnt]
                · exact absurd h (by simp)
              case neg =>
                refine ⟨fun out s' h => ?_, fun s2 h => ?_⟩ <;>
                  (simp only [lineStep] at h;
                   rw [if_neg h1, if_pos h2, if_neg h3, if_neg h4, if_neg h5, if_neg h6] at h)
                · injection h with h; injection h with h; injection h with ho hs
                  subst ho; subst hs; simp [dedentCnt, indentCnt]
                · exact absurd h (by simp)


/-- Level accounting of one lexer call: each emitted `Indent` increments
the level by exactly one, each `Dedent` decrements it by exactly one, and
every other outcome leaves it unchanged. -/
theorem nextF_level : ∀ (f : Nat) (s : LexState) (out : LexOut) (s' : LexState),
    nextF f s = some (out, s') →
    s'.level + dedentCnt out = s.level + indentCnt out := by
  intro f
  induction f with
  | zero => intro s out s' h; simp [nextF] at h
  | succ f ih =>
    intro s out s' h
    unfold nextF at h
    split at h
    · exact absurd h (by simp)
    · split at h
      · -- needs_dedent
        injection h with h; injection h with ho hs
        subst ho; subst hs
        simp only [dedentCnt, indentCnt]
        rename_i hcond
        omega
      · -- lineStep dispatch
        split at h
        case _ r heq =>
          subst h
          by_cases hj : s.janl = true
          · rw [if_pos hj] at heq
            exact (lineStep_level s.level s.byt s.rest).1 out s' heq
          · rw [if_neg hj] at heq
            exact (lineStep_level s.level _ _).1 out s' heq
        case _ s2 heq =>
          have h2 := ih s2 out s' h
          have hlv : s2.level = s.level := by
            by_cases hj : s.janl = true
            · rw [if_pos hj] at heq
              exact (lineStep_level s.level s.byt s.rest).2 s2 heq
            · rw [if_neg hj] at heq
              exact (lineStep_level s.level _ _).2 s2 heq
          rw [hlv] at h2
          exact h2

/-- `countTok` of a cons for `Indent`, via the per-outcome contribution. -/
theorem countTok_cons_indent (o : LexOut) (l : List LexOut) :
    countTok (o :: l) .indent = indentCnt o + countTok l .indent := by
  cases o with
  | tok p u => cases u <;> (simp [countTok, indentCnt, List.countP_cons]; try omega)
  | err e => simp [countTok, indentCnt, List.countP_cons]
  | panicOut m => simp [countTok, indentCnt, List.countP_cons]

/-- `countTok` of a cons for `Dedent`, via the per-outcome contribution. -/
theorem countTok_cons_dedent (o : LexOut) (l : List LexOut) :
    countTok (o :: l) .dedent = dedentCnt o + countTok l .dedent := by
  cases o with
  | tok p u => cases u <;> (simp [countTok, dedentCnt, List.countP_cons]; try omega)
  | err e => simp [countTok, dedentCnt, List.countP_cons]
  | panicOut m => simp [countTok, dedentCnt, List.countP_cons]

/-- Level accounting along a whole trace: the final level plus all emitted
dedents equals the initial level plus all emitted indents. -/
theorem lexGoSt_level : ∀ (n : Nat) (s : LexState),
    (lexGoSt n s).2.level + countTok (lexGoSt n s).1 .dedent
      = s.level + countTok (lexGoSt n s).1 .indent := by
  intro n
  induction n with
  | zero => intro s; simp [lexGoSt, countTok]
  | succ n ih =>
    intro s
    unfold lexGoSt
    cases hn : next s with
    | none => simp [countTok]
    | some r =>
      obtain ⟨out, s2⟩ := r
      have hstep := nextF_level _ s out s2 hn
      cases out with
      | tok p t =>
        simp only []
        rw [countTok_cons_indent, countTok_cons_dedent]
        have := ih s2
        omega
      | err e =>
        simp only [countTok, List.countP, List.countP.go]
        simp only [indentCnt, dedentCnt] at hstep
        omega
      | panicOut m =>
        simp only [countTok, List.countP, List.countP.go]
        simp only [indentCnt, dedentCnt] at hstep
        omega

/-- The head surviving `dropWhile (· = ' ')` is not a space. -/
theorem head_dropWhile_not_space :
    ∀ (l : List Char) (c : Char) (r : List Char),
      l.dropWhile (· = ' ') = c :: r → c ≠ ' ' := by
  intro l
  induction l with
  | nil => intro c r h; simp [List.dropWhile] at h
  | cons a t ih =>
    intro c r h
    by_cases ha : a = ' '
    · rw [List.dropWhile_cons_of_pos (by simp [ha])] at h
      exact ih c r h
    · rw [List.dropWhile_cons_of_neg (by simp [ha])] at h
      injection h with h1 _
      subst h1; exact ha

/-- A `lineStep` whose input does not begin with a space never continues
and never emits `Indent` or `Dedent` (the indentation arm needs a leading
space). -/
theorem lineStep_no_space (lvl byte1 : Nat) (rest1 : List Char)
    (hh : ∀ c r, rest1 = c :: r → c ≠ ' ') :
    (∀ s2, lineStep lvl byte1 rest1 ≠ .cont s2)
    ∧ (∀ out s', lineStep lvl byte1 rest1 = .done (some (out, s')) →
        indentCnt out = 0 ∧ dedentCnt out = 0) := by
  cases rest1 with
  | nil => exact ⟨fun s2 h => by simp [lineStep] at h, fun out s' h => by simp [lineStep] at h⟩
  | cons c1 rest2 =>
    have hc : c1 ≠ ' ' := hh c1 rest2 rfl
    by_cases h1 : c1 = '\n'
    · refine ⟨fun s2 h => ?_, fun out s' h => ?_⟩ <;>
        (simp only [lineStep] at h; rw [if_pos h1] at h)
      · exact absurd h (by simp)
      · injection h with h; injection h with h; injection h with ho hs
        subst ho; exact ⟨rfl, rfl⟩
    · refine ⟨fun s2 h => ?_, fun out s' h => ?_⟩ <;>
        (simp only [lineStep] at h; rw [if_neg h1, if_neg hc] at h)
      · exact absurd h (by simp)
      · injection h with h; injection h with h
        have hps : scanTok lvl byte1 c1 rest2 = (out, s') := h
        obtain ⟨_, hi, hd⟩ := scanTok_spec lvl byte1 c1 rest2
        rw [hps] at hi hd
        exact ⟨hi, hd⟩

/-- With the just-after-newline flag unset, a lexer call never emits
`Indent` or `Dedent`: the leading space run is skipped as ordinary
whitespace and the needs-dedent path requires the flag. -/
theorem nextF_janl_false (f : Nat) (s : LexState) (out : LexOut) (s' : LexState)
    (hj : s.janl = false) (h : nextF f s = some (out, s')) :
    indentCnt out = 0 ∧ dedentCnt out = 0 := by
  cases f with
  | zero => simp [nextF] at h
  | succ f =>
    unfold nextF at h
    split at h
    · exact absurd h (by simp)
    · split at h
      · rename_i hcond
        rw [hj] at hcond
        simp at hcond
      · split at h
        case _ r heq =>
          subst h
          rw [hj] at heq
          simp only [Bool.false_eq_true, if_false] at heq
          exact (lineStep_no_space s.level _ _
            (fun c r hr => head_dropWhile_not_space s.rest c r hr)).2 out s' heq
        case _ s2 heq =>
          rw [hj] at heq
          simp only [Bool.false_eq_true, if_false] at heq
          exact absurd heq ((lineStep_no_space s.level _ _
            (fun c r hr => head_dropWhile_not_space s.rest c r hr)).1 s2)

theorem c5_aux : ∀ (n : Nat) (rest : List Char) (byt : Nat) (c : Char) (r : List Char),
    rest = c :: r → c ≠ ' ' → c ≠ '\n' →
    lexGoSt n ⟨rest, byt, true, n⟩
      = (List.replicate n (.tok byt .dedent), ⟨rest, byt, true, 0⟩) := by
  intro n
  induction n with
  | zero => intro rest byt c r hrest hc1 hc2; simp [lexGoSt]
  | succ n ih =>
    intro rest byt c r hrest hc1 hc2
    subst hrest
    have hnext : next ⟨c :: r, byt, true, n + 1⟩
        = some (.tok byt .dedent, ⟨c :: r, byt, true, n⟩) := by
      unfold next nextF
      simp only [List.length_cons]
      rw [if_pos ⟨by omega, by trivial, hc1, hc2⟩]
      simp
    unfold lexGoSt
    rw [hnext]
    simp only []
    rw [ih (c :: r) byt c r rfl hc1 hc2]
    simp [List.replicate_succ]

/-- C5: a line starting with zero spaces (first character not a newline)
reached with indent level `n > 0` makes the next `n` lexer calls each
emit one `Dedent` at the current byte offset without consuming any input
character; afterwards the level is 0 and everything else (remaining
input, offset, flag) is unchanged, and the following call scans the
still-unconsumed first character of the line normally. -/
theorem c5_zero_space_line_dedents (s : LexState) (c : Char) (r : List Char) (n : Nat)
    (hrest : s.rest = c :: r) (hc1 : c ≠ ' ') (hc2 : c ≠ '\n')
    (hj : s.janl = true) (hn : s.level = n) (hpos : 0 < n) :
    lexGoSt n s = (List.replicate n (.tok s.byt .dedent), { s with level := 0 })
    ∧ next { s with level := 0 } = some (scanTok 0 s.byt c r) := by
  obtain ⟨rest, byt, janl, level⟩ := s
  simp only [] at hrest hj hn ⊢
  subst hj; subst hn; subst hrest
  constructor
  · exact c5_aux level (c :: r) byt c r rfl hc1 hc2
  · unfold next nextF
    simp only [List.length_cons]
    rw [if_neg (by rintro ⟨h0, _, _, _⟩; exact h0 rfl)]
    rw [if_pos trivial]
    simp only [lineStep]
    rw [if_neg hc2, if_neg hc1]

/-- Witness for `c5_zero_space_line_dedents` at a concrete state: two
pending levels before a line starting with `x`. -/
theorem c5_zero_space_line_dedents_witness :
    lexGoSt 2 ⟨'x' :: ';' :: [], 7, true, 2⟩
      = ([.tok 7 .dedent, .tok 7 .dedent], ⟨'x' :: ';' :: [], 7, true, 0⟩)
    ∧ next ⟨'x' :: ';' :: [], 7, true, 0⟩ = some (scanTok 0 7 'x' [';']) :=
  c5_zero_space_line_dedents ⟨'x' :: ';' :: [], 7, true, 2⟩ 'x' [';'] 2
    rfl (by decide) (by decide) rfl rfl (by decide)

/-- The leading space run of `replicate n ' ' ++ c :: r` is exactly the
replicated spaces when `c` is not a space. -/
theorem takeWhile_spaces_replicate (n : Nat) (c : Char) (r : List Char) (hc : c ≠ ' ') :
    (List.replicate n ' ' ++ c :: r).takeWhile (· = ' ') = List.replicate n ' ' := by
  induction n with
  | zero => simp [List.takeWhile_cons_of_neg, hc]
  | succ n ih =>
    rw [List.replicate_succ, List.cons_append, List.takeWhile_cons_of_pos (by simp)]
    rw [ih]

/-- Dropping one 4-space unit from a leading run of `4 * (k + 1)` spaces. -/
theorem drop_four_spaces (k : Nat) (c : Char) (r : List Char) :
    (List.replicate (4 * (k + 1)) ' ' ++ c :: r).drop 4
      = List.replicate (4 * k) ' ' ++ c :: r := by
  have h4 : 4 * (k + 1) = 4 + 4 * k := by ring
  rw [h4, List.replicate_add, List.append_assoc]
  have h := List.drop_left (List.replicate 4 ' ') (List.replicate (4 * k) ' ' ++ c :: r)
  simp only [List.length_replicate] at h
  exact h

/-- C4 (amended): on a still-indented line whose leading run is
`4 * (k + 1)` spaces with `k + 1` below the current level, one lexer call
emits exactly one `Dedent`, consumes one 4-space unit and decrements the
level by one; the following call emits no `Indent` and no `Dedent` at all
(the just-after-newline flag is now unset, so the remaining leading
spaces are skipped as ordinary whitespace and the level is not adjusted
further).  In particular a drop of two or more levels onto a
still-indented line produces only one `Dedent`. -/
theorem c4_one_dedent_per_line (s : LexState) (k : Nat) (c : Char) (r : List Char)
    (hrest : s.rest = List.replicate (4 * (k + 1)) ' ' ++ c :: r)
    (hc1 : c ≠ ' ') (_hc2 : c ≠ '\n') (hj : s.janl = true)
    (hlt : k + 1 < s.level) :
    next s = some (.tok s.byt .dedent,
      ⟨List.replicate (4 * k) ' ' ++ c :: r, s.byt + 4, false, s.level - 1⟩)
    ∧ ∀ out s'', next ⟨List.replicate (4 * k) ' ' ++ c :: r, s.byt + 4, false, s.level - 1⟩
        = some (out, s'') → indentCnt out = 0 ∧ dedentCnt out = 0 := by
  constructor
  · obtain ⟨rest, byt, janl, level⟩ := s
    simp only [] at hrest hj hlt ⊢
    subst hj; subst hrest
    have hcons : List.replicate (4 * (k + 1)) ' ' ++ c :: r
        = ' ' :: (List.replicate (4 * k + 3) ' ' ++ c :: r) := by
      have h4 : 4 * (k + 1) = (4 * k + 3) + 1 := by ring
      rw [h4, List.replicate_succ, List.cons_append]
    have htw2 : ((' ' :: (List.replicate (4 * k + 3) ' ' ++ c :: r)).takeWhile
        (· = ' ')).length = 4 * (k + 1) := by
      rw [← hcons, takeWhile_spaces_replicate _ _ _ hc1, List.length_replicate]
    have hdrop2 : (' ' :: (List.replicate (4 * k + 3) ' ' ++ c :: r)).drop 4
        = List.replicate (4 * k) ' ' ++ c :: r := by
      rw [← hcons, drop_four_spaces]
    unfold next nextF
    rw [hcons]
    simp only [ne_eq]
    rw [if_neg (by simp)]
    rw [if_pos trivial]
    simp only [lineStep]
    rw [if_neg (by decide)]
    rw [if_pos trivial]
    rw [htw2]
    rw [if_neg (by omega), if_neg (by omega), if_pos (by omega)]
    rw [hdrop2]
  · intro out s'' h
    exact nextF_janl_false _ _ out s'' rfl h


/-- Witness for `c4_one_dedent_per_line`: the lexer at level 3 entering
the line `    e;` (a two-level drop) emits one `Dedent` consuming the
4-space unit. -/
theorem c4_one_dedent_per_line_witness :
    next ⟨"    e;\n".toList, 45, true, 3⟩
      = some (.tok 45 .dedent, ⟨"e;\n".toList, 49, false, 2⟩) :=
  (c4_one_dedent_per_line ⟨"    e;\n".toList, 45, true, 3⟩ 0 'e' ";\n".toList
    (by decide) (by decide) (by decide) rfl (by decide)).1

/-- C4 as stated is false: in
`if a:∖n    if b:∖n        if c:∖n            d;∖n    e;∖n` the line
`    e;` is reached at indent level 3 with `found = 1`; the claim demands
one `Dedent` per call until the level equals 1 (hence two `Dedent`
tokens before `e`), but the whole stream contains exactly one `Dedent`
and scanning resumes at `e` with the level stuck at 2. -/
theorem c4_counterexample :
    lexItems "if a:\n    if b:\n        if c:\n            d;\n    e;\n".toList
      = [.tok 0 .kwIf, .tok 3 (.ident ['a']), .tok 4 .colon, .tok 5 .newline,
         .tok 6 .indent, .tok 10 .kwIf, .tok 13 (.ident ['b']), .tok 14 .colon,
         .tok 15 .newline, .tok 16 .indent, .tok 24 .kwIf, .tok 27 (.ident ['c']),
         .tok 28 .colon, .tok 29 .newline, .tok 30 .indent, .tok 42 (.ident ['d']),
         .tok 43 .semicolon, .tok 44 .newline, .tok 45 .dedent, .tok 49 (.ident ['e']),
         .tok 50 .semicolon, .tok 51 .newline]
    ∧ countTok
        (lexItems "if a:\n    if b:\n        if c:\n            d;\n    e;\n".toList)
        .dedent = 1
    ∧ (lexGoSt (2 * 52 + 8)
        (lexInit "if a:\n    if b:\n        if c:\n            d;\n    e;\n".toList)).2.level
        = 2 := by
  refine ⟨by decide, by decide, by decide⟩

/-- C3: for an input whose lines' leading-space counts are all multiples
of 4, after any prefix of the emitted token sequence (the outcomes of the
first `n` lexer calls, for any `n`) the number of `Indent` tokens minus
the number of `Dedent` tokens equals the lexer's current indent level —
stated additively over `Nat` — and in particular the difference is never
negative. -/
theorem c3_indent_invariant (src : List Char)
    (_hmul : ∀ l ∈ split_nl src, (l.takeWhile (· = ' ')).length % 4 = 0) (n : Nat) :
    countTok (lexGo n src) .indent
      = countTok (lexGo n src) .dedent + (lexGoSt n (lexInit src)).2.level
    ∧ countTok (lexGo n src) .dedent ≤ countTok (lexGo n src) .indent := by
  have h := lexGoSt_level n (lexInit src)
  unfold lexGo
  simp only [lexInit] at h ⊢
  constructor <;> omega

/-- Witness for `c3_indent_invariant` on `if a:∖n    b;∖nc;∖n` after 9
calls: 1 indent, 1 dedent, level 0. -/
theorem c3_indent_invariant_witness :
    (∀ l ∈ split_nl "if a:\n    b;\nc;\n".toList,
      (l.takeWhile (· = ' ')).length % 4 = 0)
    ∧ countTok (lexGo 9 "if a:\n    b;\nc;\n".toList) .indent
        = countTok (lexGo 9 "if a:\n    b;\nc;\n".toList) .dedent
          + (lexGoSt 9 (lexInit "if a:\n    b;\nc;\n".toList)).2.level :=
  ⟨by decide, (c3_indent_invariant "if a:\n    b;\nc;\n".toList (by decide) 9).1⟩

/-- C6 as stated is false: for the input `    a∖nb` (first line indented
exactly 4 spaces, second line with zero leading spaces) the claimed
stream is `Indent, Ident a, Newline, Dedent, Ident b`, but the lexer is
created with `just_after_newline = false`, so the leading spaces of the
very first line are skipped as ordinary whitespace: no `Indent` (and no
`Dedent`) is ever emitted. -/
theorem c6_counterexample :
    lexItems "    a\nb".toList
      = [.tok 4 (.ident ['a']), .tok 5 .newline, .tok 6 (.ident ['b'])]
    ∧ countTok (lexItems "    a\nb".toList) .indent = 0
    ∧ countTok (lexItems "    a\nb".toList) .dedent = 0 := by
  refine ⟨by decide, by decide, by decide⟩

/-- C6 (amended): indentation is measured only on lines that follow a
`Newline` token, not at the implicit start of input: `Lexer::new` starts
with `just_after_newline = false`, so the very first lexer call can never
emit `Indent` or `Dedent`, and for `    a∖nb` the stream is just the
first line's tokens, `Newline`, then the second line's tokens. -/
theorem c6_start_of_input (src : List Char) :
    (∀ out s', next (lexInit src) = some (out, s') →
      indentCnt out = 0 ∧ dedentCnt out = 0)
    ∧ lexItems "    a\nb".toList
        = [.tok 4 (.ident ['a']), .tok 5 .newline, .tok 6 (.ident ['b'])] := by
  constructor
  · intro out s' h
    exact nextF_janl_false _ _ out s' rfl h
  · decide

/-- Witness for `c6_start_of_input` at the concrete input `    a∖nb`:
the first call emits the identifier `a`, not an `Indent`. -/
theorem c6_start_of_input_witness :
    indentCnt (.tok 4 (.ident ['a'])) = 0 ∧ dedentCnt (.tok 4 (.ident ['a'])) = 0 :=
  (c6_start_of_input "    a\nb".toList).1 (.tok 4 (.ident ['a']))
    ⟨['\n', 'b'], 5, false, 0⟩ (by decide)

/-! ## Parser claim theorems -/

/-- Modelled from the spec: the token form of each reduced operator
(the inverse image of `Tok.asOperator` on its defined subset). -/
def opToTok : Operator → Tok
  | .add => .add
  | .sub => .sub
  | .mul => .mul
  | .div => .div
  | .equals => .doubleEq

/-- C1: for a binary chain `a OP1 b OP2 c` of identifier operands (at
arbitrary byte offsets), (i) if the operators have equal precedence the
parser groups right-associatively — the result is literally the AST of
`a OP1 (b OP2 c)` and coincides with parsing the token stream
`a OP1 ( b OP2 c )`; (ii) if `OP2` has strictly higher precedence it
binds tighter on the right; (iii) if `OP1` has strictly higher precedence
it binds tighter on the left (precedence ordered
`Lowest < AddSub < MulDiv < Equality` via `Precedence.toNat`). -/
theorem c1_precedence_grouping (o1 o2 : Operator) (a b c : List Char)
    (p1 p2 p3 p4 p5 q1 q2 q3 q4 q5 q6 q7 : Nat) :
    (o1.precedence = o2.precedence →
      parse_expr 32 [.ok (p1, .ident a), .ok (p2, opToTok o1), .ok (p3, .ident b),
          .ok (p4, opToTok o2), .ok (p5, .ident c)] .lowest 0 ParseContext.new
        = .ok (.binExpr o1 (.litExpr (.ident (.ident a)))
            (.binExpr o2 (.litExpr (.ident (.ident b)))
              (.litExpr (.ident (.ident c)))), [])
      ∧ parse_expr 32 [.ok (p1, .ident a), .ok (p2, opToTok o1), .ok (p3, .ident b),
          .ok (p4, opToTok o2), .ok (p5, .ident c)] .lowest 0 ParseContext.new
        = parse_expr 32 [.ok (q1, .ident a), .ok (q2, opToTok o1), .ok (q3, .lparen),
            .ok (q4, .ident b), .ok (q5, opToTok o2), .ok (q6, .ident c),
            .ok (q7, .rparen)] .lowest 0 ParseContext.new)
    ∧ ((o1.precedence).toNat < (o2.precedence).toNat →
      parse_expr 32 [.ok (p1, .ident a), .ok (p2, opToTok o1), .ok (p3, .ident b),
          .ok (p4, opToTok o2), .ok (p5, .ident c)] .lowest 0 ParseContext.new
        = .ok (.binExpr o1 (.litExpr (.ident (.ident a)))
            (.binExpr o2 (.litExpr (.ident (.ident b)))
              (.litExpr (.ident (.ident c)))), []))
    ∧ ((o2.precedence).toNat < (o1.precedence).toNat →
      parse_expr 32 [.ok (p1, .ident a), .ok (p2, opToTok o1), .ok (p3, .ident b),
          .ok (p4, opToTok o2), .ok (p5, .ident c)] .lowest 0 ParseContext.new
        = .ok (.binExpr o2
            (.binExpr o1 (.litExpr (.ident (.ident a)))
              (.litExpr (.ident (.ident b))))
            (.litExpr (.ident (.ident c))), [])) := by
  refine ⟨fun h => ⟨?_, ?_⟩, fun h => ?_, fun h => ?_⟩ <;>
    cases o1 <;> cases o2 <;>
    first
      | rfl
      | exact absurd h (by decide)

/-- Witness for `c1_precedence_grouping`: `a + b + c` groups as
`a + (b + c)`. -/
theorem c1_precedence_grouping_witness :
    parse_expr 32 [.ok (0, .ident ['a']), .ok (2, .add), .ok (4, .ident ['b']),
        .ok (6, .add), .ok (8, .ident ['c'])] .lowest 0 ParseContext.new
      = .ok (.binExpr .add (.litExpr (.ident (.ident ['a'])))
          (.binExpr .add (.litExpr (.ident (.ident ['b'])))
            (.litExpr (.ident (.ident ['c'])))), []) :=
  ((c1_precedence_grouping .add .add ['a'] ['b'] ['c'] 0 2 4 6 8 0 2 4 6 8 10 12).1 rfl).1

/-- At most one semicolon-less expression statement, and only in final
position: the well-formedness predicate of spec §4.2 on a block's
statement list. -/
def noSemiOnlyLast : List AstStmt → Prop
  | [] => True
  | [_] => True
  | s :: rest => isNoSemiExpr s = false ∧ noSemiOnlyLast rest

/-- Loop invariant of `parse_block`: a successful block extends the
accumulated statements by a tail in which a semicolon-less expression
statement can only be last, and a tail that is empty whenever the
`has_no_semi_expr` flag was already set. -/
theorem parse_block_go_tail :
    ∀ (f : Nat) (ts : TS) (indent : Nat) (acc : List AstStmt) (flag : Bool)
      (blk : AstBlock) (rest : TS),
      parse_block_go f ts indent acc flag = .ok (blk, rest) →
      ∃ tail, blk.stmts = acc ++ tail ∧ noSemiOnlyLast tail
        ∧ (flag = true → tail = []) := by
  intro f
  induction f with
  | zero => intro ts indent acc flag blk rest h; simp [parse_block_go] at h
  | succ f ih =>
    intro ts indent acc flag blk rest h
    unfold parse_block_go at h
    split at h
    · -- end of input
      injection h with h; injection h with hb _
      exact ⟨[], by rw [← hb]; simp [AstBlock.stmts], trivial, fun _ => rfl⟩
    · -- newline: skip
      exact ih _ _ _ _ _ _ h
    · -- indent: error
      exact absurd h (by simp)
    · -- dedent: close block
      injection h with h; injection h with hb _
      exact ⟨[], by rw [← hb]; simp [AstBlock.stmts], trivial, fun _ => rfl⟩
    · -- a statement token
      rename_i ix tok r0 hx1 hx2 hx3
      split at h
      · exact absurd h (by simp)
      · rename_i hflag
        cases hps : parse_stmt f (Except.ok (ix, tok) :: r0) indent with
        | error e => rw [hps] at h; exact absurd h (by simp [Bind.bind, Except.bind])
        | ok v =>
          obtain ⟨stmt, ts2⟩ := v
          rw [hps] at h
          simp only [Bind.bind, Except.bind] at h
          obtain ⟨tail2, hstmts, hok, hflag2⟩ := ih _ _ _ _ _ _ h
          refine ⟨stmt :: tail2, ?_, ?_, ?_⟩
          · rw [hstmts]; simp
          · cases htail : tail2 with
            | nil => cases stmt <;> trivial
            | cons t2 r2 =>
              subst htail
              constructor
              · by_cases hns : isNoSemiExpr stmt = true
                · exact absurd (hflag2 hns) (by simp)
                · simpa using hns
              · exact hok
          · intro hf; exact absurd hf (by simp [hflag])
    · -- lex error at the head: todo!() panic
      exact absurd h (by simp)

/-- C7: (i) whenever a statement-starting token (anything other than
`Newline`/`Indent`/`Dedent`) is peeked while a semicolon-less expression
statement has already been parsed in the same block, `parse_block`
returns "unexpected statement" carrying that token's byte offset;
(ii) every successfully parsed block has at most one semicolon-less
expression statement, and only in final position; (iii) the block
`a; b c;` (with `b` unterminated) fails with "unexpected statement" at
`c`'s byte offset 5; (iv) the fully terminated variant `a; b; c` (tail
expression last) parses successfully. -/
theorem c7_unexpected_stmt :
    (∀ (f ix : Nat) (tok : Tok) (rest : TS) (indent : Nat) (stmts : List AstStmt),
      tok ≠ .newline → tok ≠ .indent → tok ≠ .dedent →
      parse_block_go (f+1) (.ok (ix, tok) :: rest) indent stmts true
        = .error (.err (.unexpectedStmt ix (srcLen tok))))
    ∧ (∀ (f : Nat) (ts : TS) (indent : Nat) (blk : AstBlock) (rest : TS),
        parse_block f ts indent = .ok (blk, rest) → noSemiOnlyLast blk.stmts)
    ∧ parse_src "a;\nb\nc;\n".toList = .error (.err (.unexpectedStmt 5 1))
    ∧ parse_src "a;\nb;\nc\n".toList
        = .ok (.mk 0 [.expr (.litExpr (.ident (.ident ['a']))) true,
            .expr (.litExpr (.ident (.ident ['b']))) true,
            .expr (.litExpr (.ident (.ident ['c']))) false] false) := by
  refine ⟨?_, ?_, by rfl, by rfl⟩
  · intro f ix tok rest indent stmts hn hi hd
    cases tok <;> first
      | exact absurd rfl hn
      | exact absurd rfl hi
      | exact absurd rfl hd
      | rfl
  · intro f ts indent blk rest h
    cases f with
    | zero => simp [parse_block] at h
    | succ f =>
      unfold parse_block at h
      obtain ⟨tail, hstmts, hok, _⟩ := parse_block_go_tail f ts indent [] false blk rest h
      rw [List.nil_append] at hstmts
      rw [hstmts]
      exact hok

/-- Witness for `c7_unexpected_stmt`: the loop with the flag set, peeking
an identifier `q` at offset 7, fails there. -/
theorem c7_unexpected_stmt_witness :
    parse_block_go 5 [.ok (7, .ident ['q'])] 0 [] true
      = .error (.err (.unexpectedStmt 7 1)) :=
  c7_unexpected_stmt.1 4 7 (.ident ['q']) [] 0 []
    (by decide) (by decide) (by decide)

/-- C10: `parse_type_decl` only ever constructs `Dynamic(name)` or
`Mut(Dynamic(name))`: in particular the `Int`/`Str`/`Bool` variants are
never produced, even for the source annotations `int`, `str`, `bool`,
and a second `mut` is rejected rather than nested. -/
theorem c10_annotation_shapes :
    (∀ (ts : TS) (ann : TypeAnnot) (rest : TS),
      parse_type_decl ts = .ok (ann, rest) →
      ∃ name, ann = .dynamic name ∨ ann = .mut (.dynamic name))
    ∧ parse_type_decl [.ok (0, .ident "int".toList)]
        = .ok (.dynamic "int".toList, [])
    ∧ parse_type_decl [.ok (0, .ident "str".toList)]
        = .ok (.dynamic "str".toList, [])
    ∧ parse_type_decl [.ok (0, .ident "bool".toList)]
        = .ok (.dynamic "bool".toList, [])
    ∧ parse_type_decl [.ok (0, .mutKw), .ok (4, .ident "int".toList)]
        = .ok (.mut (.dynamic "int".toList), [])
    ∧ parse_type_decl [.ok (0, .mutKw), .ok (4, .mutKw), .ok (8, .ident "int".toList)]
        = .error (.err (.expectedTypeAnnot 4 3)) := by
  refine ⟨?_, rfl, rfl, rfl, rfl, rfl⟩
  intro ts ann rest h
  have after : ∀ (isMut : Bool) (ts1 : TS),
      parse_type_decl_after isMut ts1 = .ok (ann, rest) →
      ∃ name, ann = .dynamic name ∨ ann = .mut (.dynamic name) := by
    intro isMut ts1 h1
    cases ts1 with
    | nil => simp [parse_type_decl_after] at h1
    | cons hd tl =>
      cases hd with
      | error e => simp [parse_type_decl_after] at h1
      | ok st =>
        obtain ⟨ix, tok⟩ := st
        cases tok <;> simp [parse_type_decl_after] at h1
        rename_i id
        obtain ⟨hann, _⟩ := h1
        cases isMut
        · exact ⟨id, Or.inl hann.symm⟩
        · exact ⟨id, Or.inr hann.symm⟩
  unfold parse_type_decl at h
  split at h
  · exact after true _ h
  · exact after false _ h

/-- Witness for `c10_annotation_shapes`: a successful annotation parse of
the identifier `T` yields a `Dynamic` annotation. -/
theorem c10_annotation_shapes_witness :
    ∃ name, TypeAnnot.dynamic "T".toList = .dynamic name
      ∨ TypeAnnot.dynamic "T".toList = .mut (.dynamic name) :=
  c10_annotation_shapes.1 [.ok (0, .ident "T".toList)] (.dynamic "T".toList) [] rfl


/-- Evaluation bridge: when lexing does not panic, the pipeline is the
parser applied to the lexed stream. -/
theorem parse_src_eq (src : List Char) (toks : TS)
    (h1 : lexPanics src = false) (h2 : lexStream src = toks) :
    parse_src src = parse (4 * src.length + 16) toks := by
  unfold parse_src
  rw [if_neg (by simp [h1]), h2]

/-- The AST of `def f() -> int:∖n    return 1;∖n` as the parser builds
it: one function definition whose body is a `return 1;` block. -/
def c2DefBlock : AstBlock :=
  .mk 0
    [.fnDef (.mk (.ident (.ident ['f'])) []
      (.mk 1 [.ret (.litExpr (.int (.intLit 1)))] true)
      (.dynamic ['i', 'n', 't']))]
    true

set_option maxHeartbeats 4000000 in
/-- C2 fails on function definitions: `def f() -> int:∖n    return 1;∖n`
parses successfully, but its rendering appends a `;` after the body block
(`ast.rs` line 258), producing `def f() -> int:∖n    return 1;∖n;∖n`,
whose re-parse fails with "invalid expression start" at the stray `;`
(byte offset 30) instead of returning an equal AST. -/
theorem c2_roundtrip_failure :
    parse_src "def f() -> int:\n    return 1;\n".toList = .ok c2DefBlock
    ∧ render c2DefBlock = "def f() -> int:\n    return 1;\n;\n".toList
    ∧ parse_src "def f() -> int:\n    return 1;\n;\n".toList
        = .error (.err (.invalidExpressionStart 30 1)) := by
  refine ⟨?_, rfl, ?_⟩
  · rw [parse_src_eq _
      [.ok (0, .kwDef), .ok (4, .ident ['f']), .ok (5, .lparen), .ok (6, .rparen),
       .ok (8, .arrow), .ok (11, .ident ['i', 'n', 't']), .ok (14, .colon),
       .ok (15, .newline), .ok (16, .indent), .ok (20, .kwReturn),
       .ok (27, .intLit 1), .ok (28, .semicolon), .ok (29, .newline)]
      (by decide) (by decide)]
    rfl
  · rw [parse_src_eq _
      [.ok (0, .kwDef), .ok (4, .ident ['f']), .ok (5, .lparen), .ok (6, .rparen),
       .ok (8, .arrow), .ok (11, .ident ['i', 'n', 't']), .ok (14, .colon),
       .ok (15, .newline), .ok (16, .indent), .ok (20, .kwReturn),
       .ok (27, .intLit 1), .ok (28, .semicolon), .ok (29, .newline),
       .ok (30, .dedent), .ok (30, .semicolon), .ok (31, .newline)]
      (by decide) (by decide)]
    rfl

/-- C8 fails on unparseable digit runs: a well-formed run lexes to its
`IntLiteral`, but a run the `i32` parse rejects (an underscore as in
`1_0`, or an out-of-range value such as `2147483648`) makes the lexer
panic via `.expect("Should have checked")` — no `LexErr` result is ever
produced for it (while `2147483647 = i32::MAX` still lexes). -/
theorem c8_numeric_panic :
    lexItems "123".toList = [.tok 0 (.intLit 123)]
    ∧ lexItems "1_0".toList = [.panicOut "Should have checked".toList]
    ∧ lexItems "2147483648".toList = [.panicOut "Should have checked".toList]
    ∧ lexItems "2147483647".toList = [.tok 0 (.intLit 2147483647)] :=
  ⟨rfl, rfl, rfl, rfl⟩

/-- `split_nl` never returns the empty list. -/
theorem split_nl_ne_nil (r : List Char) : split_nl r ≠ [] := by
  cases r with
  | nil => simp [split_nl]
  | cons c t =>
    rw [split_nl]
    split
    · simp
    · cases h : split_nl t with
      | nil => simp
      | cons a b => simp

/-- `split('\n')` produces one more piece than there are newlines. -/
theorem split_nl_length (l : List Char) :
    (split_nl l).length = l.countP (· = '\n') + 1 := by
  induction l with
  | nil => simp [split_nl]
  | cons c r ih =>
    by_cases hc : c = '\n'
    · rw [split_nl, if_pos hc, List.countP_cons]
      simp [hc, ih]
    · rw [split_nl, if_neg hc, List.countP_cons]
      have hd : (decide (c = '\n')) = false := by simpa using hc
      rw [hd]
      cases hsp : split_nl r with
      | nil => exact absurd hsp (split_nl_ne_nil r)
      | cons h t => simp [hsp] at ih ⊢; omega


/-- C9 as stated is false: for the source `x∖ny` and an error at byte
offset 2 (on the second line, preceded by one newline), the claim demands
line number 2; `extract_line` computes `split('\n').count() - 1 = 1` and
`report` renders ` 1:2:` in the diagnostic header. -/
theorem c9_counterexample :
    report (.error (.err (.invalidExpressionStart 2 1))) "x\ny".toList
      = .error ("\n\x1b[1mError: Expected Expression at Position 1:2:\x1b[0m\n\n\t\x1b[91my\x1b[0m\n\t\x1b[91m^\x1b[0m\n\n".toList)
    ∧ (extract_line "x\ny".toList 2).2.1 = 1
    ∧ (extract_line "x\ny".toList 2).2.1 ≠ 2 :=
  ⟨rfl, rfl, by decide⟩

/-- C9 (amended): the reported line number is 0-based, not 1-based: for
every source and byte offset, the line-number field `extract_line`
computes equals the number of newlines strictly before the offset (so an
offset before the first newline is reported as line 0, and an offset
preceded by `k` newlines as line `k`), and the rendered diagnostic of
`print_err` contains exactly that number's decimal representation in its
header. -/
theorem c9_line_number_zero_based (src msg : List Char) (ix len : Nat) :
    (extract_line src ix).2.1 = (src.take ix).countP (· = '\n')
    ∧ List.IsInfix (natRepr ((src.take ix).countP (· = '\n')))
        (print_err src msg ix len) := by
  have h1 : (extract_line src ix).2.1 = (src.take ix).countP (· = '\n') := by
    unfold extract_line
    simp only []
    rw [split_nl_length]
    omega
  refine ⟨h1, ?_⟩
  refine ⟨'\n' :: (escBold ++ "Error: ".toList ++ msg ++ [' ']),
    ':' :: natRepr ix ++ ':' :: escReset ++ "\n\n\t".toList
      ++ highlight_line (extract_line src ix).1 (extract_line src ix).2.2 len
      ++ "\n\t".toList
      ++ underline_line (extract_line src ix).1 (extract_line src ix).2.2 len
      ++ "\n\n".toList, ?_⟩
  rw [← h1]
  unfold print_err
  simp [List.append_assoc, List.cons_append]
